import Mathlib

/-!
Shallow embedding of the scoring and aggregation core of
`src/judges/minna_judge/minna_judge.py` (classes `MinnaQrelsCreator` and
`MinnaLeaderboardJudge`), together with theorems about it.

External collaborators (the LLM backend, the `doc_id_md5` hash, the
entailment model, the leaderboard builder) are modelled as abstract
parameters or as lists of already-received results, exactly at the
interface the core consumes:

* an LLM batch result is the raw reply text; for claim extraction we model
  the outcome of `json.loads` on that text as `Except Unit Json`
  (`Except.error` is a `json.JSONDecodeError`);
* `doc_id_md5` is an abstract function `String → String`;
* `nli_model.predict([(doc.text, claim)])[0][1]` is an abstract function
  `String → Json → Rat` giving the entailment probability;
* the leaderboard builder is modelled by returning the list of `add` calls
  made by `MinnaLeaderboardJudge.judge`, one `Entry` per call.

Numeric values are modelled as rationals.
-/

namespace MinnaJudge

/-- A JSON value, as returned by a successful `json.loads`. -/
inductive Json where
  | null : Json
  | bool (b : Bool) : Json
  | num (q : ℚ) : Json
  | str (s : String) : Json
  | arr (xs : List Json) : Json
  | obj (kvs : List (String × Json)) : Json

/-- A RAG response (`Report`): the fields of the source the core reads.
`documents` is the insertion-ordered `response.documents` mapping,
each value reduced to its `text` field. -/
structure Response where
  run_id : String
  topic_id : String
  text : String
  documents : List (String × String)

/-- One row of the qrels table (`qrels.rows`). -/
structure QrelsRow where
  topic_id : String
  doc_id : String
  grade : ℤ

/-- One `builder.add` call made by `MinnaLeaderboardJudge.judge`:
the (run, topic) key and the three measure values. -/
structure Entry where
  run_id : String
  topic_id : String
  COMPLETENESS_SCORE : ℚ
  ATTRIBUTION_SCORE : ℚ
  FINAL_SCORE : ℚ
deriving DecidableEq

/-- A Python `dict` assignment `m[k] = v`: we cons onto an association
list, and `dictLookup` returns the most recent binding, which matches the
overwrite-on-reassignment semantics of `dict`. -/
def dictInsert {α β : Type} (m : List (α × β)) (k : α) (v : β) : List (α × β) :=
  (k, v) :: m

/-- Python `dict` lookup over the association-list model: first (most
recent) binding wins. -/
def dictLookup {α β : Type} [DecidableEq α] : List (α × β) → α → Option β
  | [], _ => none
  | (k, v) :: rest, key => if key = k then some v else dictLookup rest key

/-- Lines 244-247: `qrels_dict[(row.topic_id, row.doc_id)] = row.grade`
for each row of `qrels.rows`, empty when `qrels` is `None`. -/
def qrelsDict (qrels : Option (List QrelsRow)) : List ((String × String) × ℤ) :=
  match qrels with
  | none => []
  | some rows =>
      rows.foldl (fun m row => dictInsert m (row.topic_id, row.doc_id) row.grade) []

/-- Lines 250-253: `json.loads(result.text)` with
`except json.JSONDecodeError: parsed = []` — the recovery replaces only a
JSON syntax error by the empty Python list. -/
def parsedClaims (result : Except Unit Json) : Json :=
  match result with
  | .error _ => Json.arr []
  | .ok v => v

/-- Lines 249-254: the `claims` dict, keyed by `(run_id, topic_id)` taken
from `requests_info` (one request per response, in response order) zipped
with the batched LLM results. -/
def claimsDict (keys : List (String × String)) (results : List (Except Unit Json)) :
    List ((String × String) × Json) :=
  (keys.zip results).foldl (fun m kr => dictInsert m kr.1 (parsedClaims kr.2)) []

/-- Line 265: Python iteration `for claim in parsed` over the parsed JSON
value. A list yields its elements, a string yields its characters as
one-character strings, a dict yields its keys; a number, boolean or
`None` is not iterable (`TypeError`), modelled as `none`. -/
def pyIterClaims : Json → Option (List Json)
  | .arr xs => some xs
  | .str s => some (s.data.map fun c => Json.str (String.mk [c]))
  | .obj kvs => some (kvs.map fun kv => Json.str kv.1)
  | _ => none

/-- Lines 266-271: a claim is supported when some document of the response
has entailment probability strictly above 0.5 for `(doc.text, claim)`;
the loop breaks at the first such document, which is `List.any`. -/
def claimSupported (nli : String → Json → ℚ) (documents : List (String × String))
    (claim : Json) : Bool :=
  documents.any fun d => decide ((1 : ℚ)/2 < nli d.2 claim)

/-- Lines 265-273: `scores` counts supported claims and
`attribution = scores/len(claims[key]) if claims[key] else 0.0`. -/
def attributionScore (nli : String → Json → ℚ) (documents : List (String × String))
    (claimList : List Json) : ℚ :=
  if claimList.isEmpty then 0
  else ((claimList.filter (claimSupported nli documents)).length : ℚ) / claimList.length

/-- Line 275: `completeness = qrels_dict.get((topic_id, text_id), 0) / 3.0`. -/
def completenessScore (qrels_dict : List ((String × String) × ℤ))
    (topic_id text_id : String) : ℚ :=
  (((dictLookup qrels_dict (topic_id, text_id)).getD 0 : ℤ) : ℚ) / 3

/-- Lines 277-285: the values passed to `builder.add` for one response,
given the claim list its parsed claims value iterates to. -/
def mkEntry (md5 : String → String) (nli : String → Json → ℚ)
    (qrels_dict : List ((String × String) × ℤ)) (r : Response)
    (claimList : List Json) : Entry :=
  let attribution := attributionScore nli r.documents claimList
  let completeness := completenessScore qrels_dict r.topic_id (md5 r.text)
  { run_id := r.run_id
    topic_id := r.topic_id
    COMPLETENESS_SCORE := completeness
    ATTRIBUTION_SCORE := attribution
    FINAL_SCORE := 1/2 * (completeness + attribution) }

/-- Lines 258-285: the body of the final loop for one response. `claims[key]`
raises `KeyError` when the key is absent (possible only when the results
list is shorter than the responses list), and iterating a non-iterable
parsed value raises `TypeError`; both are modelled as `none`. -/
def processResponse (md5 : String → String) (nli : String → Json → ℚ)
    (qrels_dict : List ((String × String) × ℤ))
    (claims : List ((String × String) × Json)) (r : Response) : Option Entry :=
  (dictLookup claims (r.run_id, r.topic_id)).bind fun parsed =>
    (pyIterClaims parsed).map fun claimList => mkEntry md5 nli qrels_dict r claimList

/-- The final loop of `judge`, processing responses in order; an uncaught
exception in the body aborts the invocation. -/
def processAll (md5 : String → String) (nli : String → Json → ℚ)
    (qrels_dict : List ((String × String) × ℤ))
    (claims : List ((String × String) × Json)) : List Response → Option (List Entry)
  | [] => some []
  | r :: rest =>
      match processResponse md5 nli qrels_dict claims r with
      | none => none
      | some e =>
          match processAll md5 nli qrels_dict claims rest with
          | none => none
          | some es => some (e :: es)

/-- `MinnaLeaderboardJudge.judge` (lines 193-293), reduced to its
scoring core: the claim-extraction LLM results arrive as one
parse outcome per response (positional zip with `requests_info`), and the
returned value is the ordered list of `builder.add` calls. -/
def judge (md5 : String → String) (nli : String → Json → ℚ)
    (responses : List Response) (qrels : Option (List QrelsRow))
    (results : List (Except Unit Json)) : Option (List Entry) :=
  let keys := responses.map fun r => (r.run_id, r.topic_id)
  processAll md5 nli (qrelsDict qrels) (claimsDict keys results) responses

/-- A record appended to `grade_records` (class `GradeRecord`, lines 38-43). -/
structure GradeRecord where
  topic_id : String
  text : String
  grade : ℤ
deriving DecidableEq

/-- Python `str.strip()`: drop leading and trailing whitespace. -/
def pyStrip (s : String) : String :=
  String.mk (((s.data.dropWhile Char.isWhitespace).reverse.dropWhile Char.isWhitespace).reverse)

/-- Python `str.lower()` (ASCII case folding). -/
def pyLower (s : String) : String :=
  String.mk (s.data.map Char.toLower)

/-- Whether the second character list is an initial segment of the first. -/
def charsStartWith : List Char → List Char → Bool
  | _, [] => true
  | [], _ :: _ => false
  | c :: cs, p :: ps => c == p && charsStartWith cs ps

/-- Python `s.startswith(p)`. -/
def pyStartsWith (s p : String) : Bool :=
  charsStartWith s.data p.data

/-- `MinnaQrelsCreator._parse_binary` (lines 178-185): strip and lowercase
`result.text` and return 1 exactly when it starts with "1" or "yes";
any exception while doing so (modelled as a missing text, `none`)
returns 0. -/
def parse_binary (result : Option String) : Nat :=
  match result with
  | none => 0
  | some t =>
      let text := pyLower (pyStrip t)
      if pyStartsWith text "1" || pyStartsWith text "yes" then 1 else 0

/-- Python `round`: round half to even (banker's rounding), on the exact
rational value. -/
def pythonRound (q : ℚ) : ℤ :=
  let f := ⌊q⌋
  let r := q - f
  if r < 1/2 then f
  else if 1/2 < r then f + 1
  else if f % 2 = 0 then f else f + 1

/-- A per-topic nugget bank, reduced to what `create_qrels` reads:
`nugget_banks.banks` maps a topic id to its `nuggets_as_list()`, each
nugget reduced to its question text. -/
def NuggetBanksModel : Type := List (String × List String)

/-- Lines 134-155 of `create_qrels`: the `(run_id, topic_id)` prefix of
each entry appended to `requests_info` — one request per (response,
nugget) pair, skipping (`continue`) any response whose topic id is not in
`nugget_banks.banks`. The request content only determines the external
LLM reply, so it is not carried. -/
def qrelsRequestKeys (banks : NuggetBanksModel) (responses : List Response) :
    List (String × String) :=
  responses.flatMap fun r =>
    match dictLookup banks r.topic_id with
    | none => []
    | some nuggets => nuggets.map fun _ => (r.run_id, r.topic_id)

/-- `scores.setdefault((run_id, topic_id), []).append(score)` (line 161):
append to the existing entry for the key, or append a new singleton
entry. -/
def addScore (k : String × String) (s : Nat) :
    List ((String × String) × List Nat) → List ((String × String) × List Nat)
  | [] => [(k, [s])]
  | (k', v) :: rest =>
      if k = k' then (k', v ++ [s]) :: rest else (k', v) :: addScore k s rest

/-- Lines 156-161: zip `requests_info` with the batched results and fold
each `_parse_binary` outcome into the `scores` dict. Each raw LLM reply is
an `Option String` (`none` marks a reply whose text cannot be read). -/
def buildScores (reqKeys : List (String × String)) (results : List (Option String)) :
    List ((String × String) × List Nat) :=
  (reqKeys.zip results).foldl (fun m kr => addScore kr.1 (parse_binary kr.2) m) []

/-- Lines 163-172, the body of the second loop for one response: skip the
response when its `(run_id, topic_id)` key has no recorded scores,
otherwise emit a `GradeRecord` with
`grade = round(3*(sum(tallies)/len(tallies)))`. -/
def emitRecord (scores : List ((String × String) × List Nat)) (r : Response) :
    Option GradeRecord :=
  match dictLookup scores (r.run_id, r.topic_id) with
  | none => none
  | some tallies =>
      some ⟨r.topic_id, r.text,
        pythonRound (3 * ((tallies.sum : ℚ) / (tallies.length : ℚ)))⟩

/-- `MinnaQrelsCreator.create_qrels` (lines 113-176), reduced to the
`grade_records` list it hands to the external `build_qrels`. -/
def create_qrels_records (banks : NuggetBanksModel) (responses : List Response)
    (results : List (Option String)) : List GradeRecord :=
  responses.filterMap (emitRecord (buildScores (qrelsRequestKeys banks responses) results))

/-! Helper lemmas. -/

theorem claimSupported_iff (nli : String → Json → ℚ) (docs : List (String × String))
    (claim : Json) :
    claimSupported nli docs claim = true ↔ ∃ d ∈ docs, (1:ℚ)/2 < nli d.2 claim := by
  simp [claimSupported, List.any_eq_true, decide_eq_true_eq]

theorem dictLookup_mem {α β : Type} [DecidableEq α] :
    ∀ {m : List (α × β)} {k : α} {v : β}, dictLookup m k = some v → (k, v) ∈ m := by
  intro m
  induction m with
  | nil => intro k v h; simp [dictLookup] at h
  | cons p rest ih =>
      intro k v h
      cases p with
      | mk k' v' =>
          unfold dictLookup at h
          by_cases hk : k = k'
          · rw [if_pos hk] at h
            subst hk
            cases h
            exact List.mem_cons_self _ _
          · rw [if_neg hk] at h
            exact List.mem_cons_of_mem _ (ih h)

theorem dictLookup_eq_of_mem {α β : Type} [DecidableEq α] :
    ∀ {m : List (α × β)} {k : α} {v : β}, (k, v) ∈ m →
      (∀ p ∈ m, p.1 = k → p.2 = v) → dictLookup m k = some v := by
  intro m
  induction m with
  | nil => intro k v h _; simp at h
  | cons p rest ih =>
      intro k v h huniq
      cases p with
      | mk k' v' =>
          unfold dictLookup
          by_cases hk : k = k'
          · rw [if_pos hk]
            have := huniq (k', v') (List.mem_cons_self _ _) hk.symm
            simp at this
            rw [this]
          · rw [if_neg hk]
            rcases List.mem_cons.mp h with heq | hmem
            · cases heq; exact absurd rfl hk
            · exact ih hmem fun p hp => huniq p (List.mem_cons_of_mem _ hp)

theorem foldl_dictInsert_eq {A K V : Type} (g : A → K × V) :
    ∀ (l : List A) (init : List (K × V)),
      l.foldl (fun m a => dictInsert m (g a).1 (g a).2) init = (l.map g).reverse ++ init := by
  intro l
  induction l with
  | nil => intro init; rfl
  | cons x xs ih =>
      intro init
      simp only [List.foldl_cons, List.map_cons, List.reverse_cons, List.append_assoc]
      rw [ih]
      rfl

theorem claimsDict_eq (keys : List (String × String)) (results : List (Except Unit Json)) :
    claimsDict keys results =
      ((keys.zip results).map fun kr => (kr.1, parsedClaims kr.2)).reverse := by
  have h := foldl_dictInsert_eq
    (fun kr : (String × String) × Except Unit Json => (kr.1, parsedClaims kr.2))
    (keys.zip results) []
  simpa [claimsDict] using h

theorem qrelsDict_eq (rows : List QrelsRow) :
    qrelsDict (some rows) =
      (rows.map fun row => ((row.topic_id, row.doc_id), row.grade)).reverse := by
  have h := foldl_dictInsert_eq
    (fun row : QrelsRow => ((row.topic_id, row.doc_id), row.grade)) rows []
  simpa [qrelsDict] using h

theorem zip_nodup_snd_eq {α β : Type} :
    ∀ {l₁ : List α} {l₂ : List β} {k : α} {a b : β}, l₁.Nodup →
      (k, a) ∈ l₁.zip l₂ → (k, b) ∈ l₁.zip l₂ → a = b := by
  intro l₁
  induction l₁ with
  | nil => intro l₂ k a b _ ha; simp at ha
  | cons x xs ih =>
      intro l₂ k a b hnd ha hb
      cases l₂ with
      | nil => simp at ha
      | cons y ys =>
          rw [List.zip_cons_cons] at ha hb
          rcases List.mem_cons.mp ha with ha' | ha'
          · rcases List.mem_cons.mp hb with hb' | hb'
            · cases ha'; cases hb'; rfl
            · cases ha'
              exact absurd (List.of_mem_zip hb').1 (List.nodup_cons.mp hnd).1
          · rcases List.mem_cons.mp hb with hb' | hb'
            · cases hb'
              exact absurd (List.of_mem_zip ha').1 (List.nodup_cons.mp hnd).1
            · exact ih (List.nodup_cons.mp hnd).2 ha' hb'

theorem claimsDict_lookup {keys : List (String × String)} {results : List (Except Unit Json)}
    {k : String × String} {res : Except Unit Json}
    (hnd : keys.Nodup) (hmem : (k, res) ∈ keys.zip results) :
    dictLookup (claimsDict keys results) k = some (parsedClaims res) := by
  rw [claimsDict_eq]
  apply dictLookup_eq_of_mem
  · rw [List.mem_reverse, List.mem_map]
    exact ⟨(k, res), hmem, rfl⟩
  · intro p hp hpk
    rw [List.mem_reverse, List.mem_map] at hp
    rcases hp with ⟨kr, hkr, hpe⟩
    cases hpe
    rcases kr with ⟨k', res'⟩
    simp only at hpk ⊢
    subst hpk
    rw [zip_nodup_snd_eq hnd hkr hmem]

theorem processAll_mem {md5 : String → String} {nli : String → Json → ℚ}
    {qd : List ((String × String) × ℤ)} {claims : List ((String × String) × Json)} :
    ∀ {rs : List Response} {es : List Entry}, processAll md5 nli qd claims rs = some es →
      ∀ e ∈ es, ∃ r ∈ rs, processResponse md5 nli qd claims r = some e := by
  intro rs
  induction rs with
  | nil =>
      intro es h e he
      simp only [processAll] at h
      cases h
      simp at he
  | cons r rest ih =>
      intro es h e he
      unfold processAll at h
      cases hr : processResponse md5 nli qd claims r with
      | none => rw [hr] at h; cases h
      | some e0 =>
          rw [hr] at h
          cases hrest : processAll md5 nli qd claims rest with
          | none => rw [hrest] at h; cases h
          | some es0 =>
              rw [hrest] at h
              cases h
              rcases List.mem_cons.mp he with he' | he'
              · exact ⟨r, List.mem_cons_self _ _, he' ▸ hr⟩
              · rcases ih hrest e he' with ⟨r', hr', h'⟩
                exact ⟨r', List.mem_cons_of_mem _ hr', h'⟩

theorem processResponse_eq_some {md5 : String → String} {nli : String → Json → ℚ}
    {qd : List ((String × String) × ℤ)} {claims : List ((String × String) × Json)}
    {r : Response} {e : Entry} :
    processResponse md5 nli qd claims r = some e ↔
      ∃ parsed claimList, dictLookup claims (r.run_id, r.topic_id) = some parsed ∧
        pyIterClaims parsed = some claimList ∧ e = mkEntry md5 nli qd r claimList := by
  simp only [processResponse, Option.bind_eq_some, Option.map_eq_some']
  constructor
  · rintro ⟨parsed, hp, claimList, hc, he⟩
    exact ⟨parsed, claimList, hp, hc, he.symm⟩
  · rintro ⟨parsed, claimList, hp, hc, he⟩
    exact ⟨parsed, hp, claimList, hc, he.symm⟩

theorem parse_binary_binary (result : Option String) :
    parse_binary result = 0 ∨ parse_binary result = 1 := by
  unfold parse_binary
  cases result with
  | none => exact Or.inl rfl
  | some t =>
      simp only
      split
      · exact Or.inr rfl
      · exact Or.inl rfl

/-- Invariant of the `scores` dict: every entry has a key drawn from `ks`
and a nonempty list of binary tallies. -/
def ScoreInv (ks : List (String × String)) (m : List ((String × String) × List Nat)) : Prop :=
  ∀ p ∈ m, p.1 ∈ ks ∧ p.2 ≠ [] ∧ ∀ t ∈ p.2, t = 0 ∨ t = 1

theorem addScore_inv {ks : List (String × String)} {k : String × String} {s : Nat} :
    ∀ {m : List ((String × String) × List Nat)}, k ∈ ks → (s = 0 ∨ s = 1) →
      ScoreInv ks m → ScoreInv ks (addScore k s m) := by
  intro m
  induction m with
  | nil =>
      intro hk hs _
      intro p hp
      simp only [addScore, List.mem_singleton] at hp
      subst hp
      refine ⟨hk, by simp, ?_⟩
      intro t ht
      simp at ht
      subst ht
      exact hs
  | cons q rest ih =>
      intro hk hs hm
      cases q with
      | mk k' v =>
          intro p hp
          unfold addScore at hp
          by_cases hkk : k = k'
          · rw [if_pos hkk] at hp
            rcases List.mem_cons.mp hp with hp' | hp'
            · subst hp'
              have hq := hm (k', v) (List.mem_cons_self _ _)
              refine ⟨hq.1, by simp [hq.2.1], ?_⟩
              intro t ht
              rcases List.mem_append.mp ht with ht' | ht'
              · exact hq.2.2 t ht'
              · simp at ht'; subst ht'; exact hs
            · exact hm p (List.mem_cons_of_mem _ hp')
          · rw [if_neg hkk] at hp
            rcases List.mem_cons.mp hp with hp' | hp'
            · subst hp'
              exact hm (k', v) (List.mem_cons_self _ _)
            · exact ih hk hs (fun q hq => hm q (List.mem_cons_of_mem _ hq)) p hp'

theorem buildScores_inv (ks : List (String × String)) (results : List (Option String)) :
    ScoreInv ks (buildScores ks results) := by
  unfold buildScores
  have main : ∀ (l : List ((String × String) × Option String))
      (m : List ((String × String) × List Nat)),
      (∀ kr ∈ l, kr.1 ∈ ks) → ScoreInv ks m →
      ScoreInv ks (l.foldl (fun m kr => addScore kr.1 (parse_binary kr.2) m) m) := by
    intro l
    induction l with
    | nil => intro m _ hm; exact hm
    | cons kr rest ih =>
        intro m hl hm
        simp only [List.foldl_cons]
        exact ih _ (fun q hq => hl q (List.mem_cons_of_mem _ hq))
          (addScore_inv (hl kr (List.mem_cons_self _ _)) (parse_binary_binary kr.2) hm)
  refine main _ _ (fun kr hkr => (List.of_mem_zip hkr).1) ?_
  intro p hp
  simp at hp

/-- Every `(run_id, topic_id)` pair in `requests_info` comes from a
response whose topic id is present in the nugget banks. -/
theorem qrelsRequestKeys_topic {banks : NuggetBanksModel} {responses : List Response}
    {k : String × String} (hk : k ∈ qrelsRequestKeys banks responses) :
    (dictLookup banks k.2).isSome = true := by
  unfold qrelsRequestKeys at hk
  rw [List.mem_flatMap] at hk
  rcases hk with ⟨r, _, hk⟩
  cases hb : dictLookup banks r.topic_id with
  | none => rw [hb] at hk; simp at hk
  | some nuggets =>
      rw [hb] at hk
      rw [List.mem_map] at hk
      rcases hk with ⟨_, _, hk⟩
      subst hk
      simp [hb]

theorem pythonRound_bounds {q : ℚ} (h0 : 0 ≤ q) (h3 : q ≤ 3) :
    0 ≤ pythonRound q ∧ pythonRound q ≤ 3 := by
  have hdef : pythonRound q =
      if q - ⌊q⌋ < 1/2 then ⌊q⌋
      else if 1/2 < q - ⌊q⌋ then ⌊q⌋ + 1
      else if ⌊q⌋ % 2 = 0 then ⌊q⌋ else ⌊q⌋ + 1 := rfl
  rw [hdef]
  have hf0 : (0:ℤ) ≤ ⌊q⌋ := Int.floor_nonneg.mpr h0
  have hf3 : ⌊q⌋ ≤ 3 := by
    have := Int.floor_le_floor h3
    simpa using this
  have hup : ¬ (q - ⌊q⌋ < 1/2) → ⌊q⌋ ≤ 2 := by
    intro hr
    push_neg at hr
    have hq : (⌊q⌋ : ℚ) ≤ 5/2 := by linarith
    have : ⌊q⌋ ≤ ⌊(5/2 : ℚ)⌋ := Int.le_floor.mpr hq
    have h52 : ⌊(5/2 : ℚ)⌋ = 2 := by norm_num
    omega
  split
  · exact ⟨hf0, hf3⟩
  · rename_i hr
    have h2 := hup hr
    split
    · omega
    · split <;> omega

theorem judge_eq (md5 : String → String) (nli : String → Json → ℚ)
    (responses : List Response) (qrels : Option (List QrelsRow))
    (results : List (Except Unit Json)) :
    judge md5 nli responses qrels results =
      processAll md5 nli (qrelsDict qrels)
        (claimsDict (responses.map fun x => (x.run_id, x.topic_id)) results) responses := rfl

theorem mkEntry_completeness (md5 : String → String) (nli : String → Json → ℚ)
    (qd : List ((String × String) × ℤ)) (r : Response) (cl : List Json) :
    (mkEntry md5 nli qd r cl).COMPLETENESS_SCORE =
      completenessScore qd r.topic_id (md5 r.text) := rfl

theorem mkEntry_attribution (md5 : String → String) (nli : String → Json → ℚ)
    (qd : List ((String × String) × ℤ)) (r : Response) (cl : List Json) :
    (mkEntry md5 nli qd r cl).ATTRIBUTION_SCORE = attributionScore nli r.documents cl := rfl

theorem mkEntry_final (md5 : String → String) (nli : String → Json → ℚ)
    (qd : List ((String × String) × ℤ)) (r : Response) (cl : List Json) :
    (mkEntry md5 nli qd r cl).FINAL_SCORE =
      1/2 * (completenessScore qd r.topic_id (md5 r.text) +
        attributionScore nli r.documents cl) := rfl

/-! Shared concrete inputs for the witness theorems. -/

/-- A stand-in content hash: every text hashes to "h". -/
def exMd5 : String → String := fun _ => "h"

/-- A concrete entailment scorer: any document entails exactly the
claim "A". -/
def exNli : String → Json → ℚ := fun _ c =>
  match c with
  | .str s => if s = "A" then 1 else 0
  | _ => 0

/-- A concrete response. -/
def exR : Response := ⟨"run", "top", "txt", [("d1", "DOC")]⟩

/-! The claims. -/

/-- C1: every leaderboard entry emitted by `judge` has
FINAL_SCORE = 0.5 * (COMPLETENESS_SCORE + ATTRIBUTION_SCORE), the
unweighted arithmetic mean of the two component scores of the same
`builder.add` call. -/
theorem judge_final_score_is_mean (md5 : String → String) (nli : String → Json → ℚ)
    (responses : List Response) (qrels : Option (List QrelsRow))
    (results : List (Except Unit Json)) (entries : List Entry)
    (h : judge md5 nli responses qrels results = some entries) :
    ∀ e ∈ entries, e.FINAL_SCORE = 1/2 * (e.COMPLETENESS_SCORE + e.ATTRIBUTION_SCORE) := by
  intro e he
  rw [judge_eq] at h
  rcases processAll_mem h e he with ⟨r, _, hr⟩
  rcases processResponse_eq_some.mp hr with ⟨parsed, claimList, _, _, he'⟩
  subst he'
  rw [mkEntry_final, mkEntry_completeness, mkEntry_attribution]

theorem judge_final_score_is_mean_witness :
    judge exMd5 exNli [exR] none [Except.ok (Json.arr [Json.str "A", Json.str "B"])] =
      some [⟨"run", "top", 0, 1/2, 1/4⟩] ∧
    (Entry.mk "run" "top" 0 (1/2) (1/4)).FINAL_SCORE =
      1/2 * ((Entry.mk "run" "top" 0 (1/2) (1/4)).COMPLETENESS_SCORE +
        (Entry.mk "run" "top" 0 (1/2) (1/4)).ATTRIBUTION_SCORE) := by
  have hA : claimSupported exNli [("d1", "DOC")] (Json.str "A") = true :=
    (claimSupported_iff exNli _ _).mpr ⟨("d1", "DOC"), by simp, by norm_num [exNli]⟩
  have hB : claimSupported exNli [("d1", "DOC")] (Json.str "B") = false := by
    rw [Bool.eq_false_iff, Ne, claimSupported_iff]
    simp [exNli, show ¬((1:ℚ)/2 < 0) from by norm_num]
  have hj : judge exMd5 exNli [exR] none
      [Except.ok (Json.arr [Json.str "A", Json.str "B"])] =
      some [⟨"run", "top", 0, 1/2, 1/4⟩] := by
    norm_num [judge, processAll, processResponse, claimsDict, dictInsert, dictLookup,
      qrelsDict, parsedClaims, pyIterClaims, mkEntry, attributionScore, completenessScore,
      exMd5, exNli, exR, Entry.mk.injEq, List.filter_cons, List.filter_nil, hA, hB]
  exact ⟨hj, judge_final_score_is_mean exMd5 exNli [exR] none
    [Except.ok (Json.arr [Json.str "A", Json.str "B"])] _ hj _ (List.mem_singleton.mpr rfl)⟩

/-- C2: a response whose extracted claim list is empty gets
ATTRIBUTION_SCORE = 0.0; the division by the number of claims is behind
the truthiness guard, so the zero-claims case is total. -/
theorem empty_claim_list_attribution_zero (md5 : String → String)
    (nli : String → Json → ℚ) (qd : List ((String × String) × ℤ))
    (claims : List ((String × String) × Json)) (r : Response) (e : Entry) (parsed : Json)
    (hc : dictLookup claims (r.run_id, r.topic_id) = some parsed)
    (hi : pyIterClaims parsed = some [])
    (he : processResponse md5 nli qd claims r = some e) :
    e.ATTRIBUTION_SCORE = 0 := by
  rcases processResponse_eq_some.mp he with ⟨parsed', cl, hc', hi', he'⟩
  rw [hc] at hc'
  cases hc'
  rw [hi] at hi'
  cases hi'
  subst he'
  rw [mkEntry_attribution]
  rfl

theorem empty_claim_list_attribution_zero_witness :
    dictLookup (claimsDict [("run", "top")] [Except.ok (Json.arr [])]) ("run", "top") =
      some (Json.arr []) ∧
    pyIterClaims (Json.arr []) = some [] ∧
    processResponse exMd5 exNli [] (claimsDict [("run", "top")] [Except.ok (Json.arr [])])
      exR = some ⟨"run", "top", 0, 0, 0⟩ ∧
    (Entry.mk "run" "top" 0 0 0).ATTRIBUTION_SCORE = 0 := by
  have hc : dictLookup (claimsDict [("run", "top")] [Except.ok (Json.arr [])])
      ("run", "top") = some (Json.arr []) := rfl
  have he : processResponse exMd5 exNli []
      (claimsDict [("run", "top")] [Except.ok (Json.arr [])]) exR =
      some ⟨"run", "top", 0, 0, 0⟩ := by
    norm_num [processResponse, claimsDict, dictInsert, dictLookup, parsedClaims,
      pyIterClaims, mkEntry, attributionScore, completenessScore, exMd5, exR,
      Entry.mk.injEq]
  refine ⟨hc, rfl, he, ?_⟩
  have hr : exR.run_id = "run" ∧ exR.topic_id = "top" := ⟨rfl, rfl⟩
  exact empty_claim_list_attribution_zero exMd5 exNli _ _ exR _ (Json.arr [])
    (by rw [hr.1, hr.2]; exact hc) rfl he

/-- C3: COMPLETENESS_SCORE is the qrels grade looked up at
(topic_id, hash of the response text), divided by 3; a missing key — in
particular when no qrels were supplied — gives 0.0 without an error. -/
theorem completeness_from_qrels_lookup (md5 : String → String)
    (nli : String → Json → ℚ) (qrels : Option (List QrelsRow))
    (claims : List ((String × String) × Json)) (r : Response) (e : Entry)
    (he : processResponse md5 nli (qrelsDict qrels) claims r = some e) :
    (dictLookup (qrelsDict qrels) (r.topic_id, md5 r.text) = none →
      e.COMPLETENESS_SCORE = 0) ∧
    (∀ g : ℤ, dictLookup (qrelsDict qrels) (r.topic_id, md5 r.text) = some g →
      e.COMPLETENESS_SCORE = (g : ℚ) / 3) ∧
    (qrels = none → e.COMPLETENESS_SCORE = 0) := by
  rcases processResponse_eq_some.mp he with ⟨parsed, cl, hc, hi, he'⟩
  subst he'
  rw [mkEntry_completeness]
  refine ⟨?_, ?_, ?_⟩
  · intro hnone
    unfold completenessScore
    rw [hnone]
    simp
  · intro g hg
    unfold completenessScore
    rw [hg]
    simp
  · intro hq
    subst hq
    unfold completenessScore
    simp [qrelsDict, dictLookup]

theorem completeness_from_qrels_lookup_witness :
    processResponse exMd5 exNli (qrelsDict (some [⟨"top", "h", 2⟩]))
      (claimsDict [("run", "top")] [Except.ok (Json.arr [])]) exR =
      some ⟨"run", "top", 2/3, 0, 1/3⟩ ∧
    dictLookup (qrelsDict (some [⟨"top", "h", 2⟩])) ("top", "h") = some 2 ∧
    (Entry.mk "run" "top" (2/3) 0 (1/3)).COMPLETENESS_SCORE = ((2 : ℤ) : ℚ) / 3 := by
  have he : processResponse exMd5 exNli (qrelsDict (some [⟨"top", "h", 2⟩]))
      (claimsDict [("run", "top")] [Except.ok (Json.arr [])]) exR =
      some ⟨"run", "top", 2/3, 0, 1/3⟩ := by
    norm_num [processResponse, claimsDict, dictInsert, dictLookup, parsedClaims,
      pyIterClaims, mkEntry, attributionScore, completenessScore, exMd5, exR,
      qrelsDict, Entry.mk.injEq]
  refine ⟨he, rfl, ?_⟩
  exact (completeness_from_qrels_lookup exMd5 exNli (some [⟨"top", "h", 2⟩]) _ exR _
    he).2.1 2 rfl

/-- C4: a claim counts as supported exactly when some document of the
response yields entailment probability strictly above 0.5 (the loop
short-circuits on the first such document), and
ATTRIBUTION_SCORE = supported / total when the claim list is nonempty. -/
theorem attribution_counts_entailed_claims (md5 : String → String)
    (nli : String → Json → ℚ) (qd : List ((String × String) × ℤ))
    (claims : List ((String × String) × Json)) (r : Response) (e : Entry)
    (parsed : Json) (claimList : List Json)
    (hc : dictLookup claims (r.run_id, r.topic_id) = some parsed)
    (hi : pyIterClaims parsed = some claimList)
    (he : processResponse md5 nli qd claims r = some e) :
    (∀ claim, claimSupported nli r.documents claim = true ↔
      ∃ d ∈ r.documents, (1:ℚ)/2 < nli d.2 claim) ∧
    (claimList ≠ [] → e.ATTRIBUTION_SCORE =
      ((claimList.filter (claimSupported nli r.documents)).length : ℚ) /
        (claimList.length : ℚ)) := by
  refine ⟨fun claim => claimSupported_iff nli r.documents claim, ?_⟩
  intro hne
  rcases processResponse_eq_some.mp he with ⟨parsed', cl, hc', hi', he'⟩
  rw [hc] at hc'
  cases hc'
  rw [hi] at hi'
  cases hi'
  subst he'
  rw [mkEntry_attribution]
  unfold attributionScore
  rw [if_neg (by simpa [List.isEmpty_iff] using hne)]

theorem attribution_counts_entailed_claims_witness :
    dictLookup (claimsDict [("run", "top")]
        [Except.ok (Json.arr [Json.str "A", Json.str "B"])]) ("run", "top") =
      some (Json.arr [Json.str "A", Json.str "B"]) ∧
    pyIterClaims (Json.arr [Json.str "A", Json.str "B"]) =
      some [Json.str "A", Json.str "B"] ∧
    processResponse exMd5 exNli (qrelsDict none)
        (claimsDict [("run", "top")] [Except.ok (Json.arr [Json.str "A", Json.str "B"])])
        exR = some ⟨"run", "top", 0, 1/2, 1/4⟩ ∧
    (Entry.mk "run" "top" 0 (1/2) (1/4)).ATTRIBUTION_SCORE =
      (([Json.str "A", Json.str "B"].filter
        (claimSupported exNli exR.documents)).length : ℚ) / 2 ∧
    (Entry.mk "run" "top" 0 (1/2) (1/4)).ATTRIBUTION_SCORE = 1/2 := by
  have hA : claimSupported exNli [("d1", "DOC")] (Json.str "A") = true :=
    (claimSupported_iff exNli _ _).mpr ⟨("d1", "DOC"), by simp, by norm_num [exNli]⟩
  have hB : claimSupported exNli [("d1", "DOC")] (Json.str "B") = false := by
    rw [Bool.eq_false_iff, Ne, claimSupported_iff]
    simp [exNli, show ¬((1:ℚ)/2 < 0) from by norm_num]
  have hc : dictLookup (claimsDict [("run", "top")]
      [Except.ok (Json.arr [Json.str "A", Json.str "B"])]) ("run", "top") =
      some (Json.arr [Json.str "A", Json.str "B"]) := rfl
  have he : processResponse exMd5 exNli (qrelsDict none)
      (claimsDict [("run", "top")] [Except.ok (Json.arr [Json.str "A", Json.str "B"])])
      exR = some ⟨"run", "top", 0, 1/2, 1/4⟩ := by
    norm_num [processResponse, claimsDict, dictInsert, dictLookup, parsedClaims,
      pyIterClaims, mkEntry, attributionScore, completenessScore, exMd5, exR,
      qrelsDict, Entry.mk.injEq, List.filter_cons, List.filter_nil, hA, hB]
  have hm : exR.run_id = "run" ∧ exR.topic_id = "top" := ⟨rfl, rfl⟩
  refine ⟨hc, rfl, he, ?_, ?_⟩
  · have := (attribution_counts_entailed_claims exMd5 exNli (qrelsDict none) _ exR _
      (Json.arr [Json.str "A", Json.str "B"]) [Json.str "A", Json.str "B"]
      (by rw [hm.1, hm.2]; exact hc) rfl he).2 (by simp)
    simpa using this
  · norm_num [attributionScore, exR, List.filter_cons, List.filter_nil, hA, hB]

/-- C7: a JSON parse failure of the claim-extraction output is recovered
locally by storing the empty list for that key; the response is still
processed into an entry (no abort) and gets ATTRIBUTION_SCORE = 0. -/
theorem json_parse_failure_recovered (md5 : String → String)
    (nli : String → Json → ℚ) (qrels : Option (List QrelsRow))
    (responses : List Response) (results : List (Except Unit Json)) (r : Response)
    (hnd : (responses.map fun x => (x.run_id, x.topic_id)).Nodup)
    (hmem : ((r.run_id, r.topic_id), (Except.error () : Except Unit Json)) ∈
      (responses.map fun x => (x.run_id, x.topic_id)).zip results) :
    dictLookup (claimsDict (responses.map fun x => (x.run_id, x.topic_id)) results)
      (r.run_id, r.topic_id) = some (Json.arr []) ∧
    processResponse md5 nli (qrelsDict qrels)
      (claimsDict (responses.map fun x => (x.run_id, x.topic_id)) results) r =
      some (mkEntry md5 nli (qrelsDict qrels) r []) ∧
    (mkEntry md5 nli (qrelsDict qrels) r []).ATTRIBUTION_SCORE = 0 := by
  have hl := claimsDict_lookup hnd hmem
  refine ⟨hl, ?_, rfl⟩
  unfold processResponse
  rw [hl]
  rfl

theorem json_parse_failure_recovered_witness :
    ([exR].map fun x => (x.run_id, x.topic_id)).Nodup ∧
    ((exR.run_id, exR.topic_id), (Except.error () : Except Unit Json)) ∈
      (([exR].map fun x => (x.run_id, x.topic_id)).zip
        [(Except.error () : Except Unit Json)]) ∧
    dictLookup (claimsDict ([exR].map fun x => (x.run_id, x.topic_id))
        [(Except.error () : Except Unit Json)]) (exR.run_id, exR.topic_id) =
      some (Json.arr []) ∧
    (mkEntry exMd5 exNli (qrelsDict none) exR []).ATTRIBUTION_SCORE = 0 := by
  have hnd : ([exR].map fun x => (x.run_id, x.topic_id)).Nodup := by simp
  have hmem : ((exR.run_id, exR.topic_id), (Except.error () : Except Unit Json)) ∈
      (([exR].map fun x => (x.run_id, x.topic_id)).zip
        [(Except.error () : Except Unit Json)]) := by
    simp [exR]
  have h := json_parse_failure_recovered exMd5 exNli none [exR]
    [(Except.error () : Except Unit Json)] exR hnd hmem
  exact ⟨hnd, hmem, h.1, h.2.2⟩

/-- C10: the recovery applies only to JSON syntax errors — a successfully
parsed value is stored verbatim in the claims dict and is what the claim
loop iterates; a bare JSON string iterates as its characters, one
one-character claim each. -/
theorem valid_json_stored_verbatim (responses : List Response)
    (results : List (Except Unit Json)) (r : Response) (v : Json)
    (hnd : (responses.map fun x => (x.run_id, x.topic_id)).Nodup)
    (hmem : ((r.run_id, r.topic_id), Except.ok v) ∈
      (responses.map fun x => (x.run_id, x.topic_id)).zip results) :
    dictLookup (claimsDict (responses.map fun x => (x.run_id, x.topic_id)) results)
      (r.run_id, r.topic_id) = some v ∧
    (∀ (md5 : String → String) (nli : String → Json → ℚ)
      (qd : List ((String × String) × ℤ)),
      processResponse md5 nli qd
        (claimsDict (responses.map fun x => (x.run_id, x.topic_id)) results) r =
        (pyIterClaims v).map fun claimList => mkEntry md5 nli qd r claimList) ∧
    (∀ s : String, pyIterClaims (Json.str s) =
      some (s.data.map fun c => Json.str (String.mk [c]))) := by
  have hl := claimsDict_lookup hnd hmem
  refine ⟨hl, ?_, fun s => rfl⟩
  intro md5 nli qd
  unfold processResponse
  rw [hl]
  rfl

theorem valid_json_stored_verbatim_witness :
    ([exR].map fun x => (x.run_id, x.topic_id)).Nodup ∧
    ((exR.run_id, exR.topic_id), (Except.ok (Json.str "ab") : Except Unit Json)) ∈
      (([exR].map fun x => (x.run_id, x.topic_id)).zip
        [(Except.ok (Json.str "ab") : Except Unit Json)]) ∧
    dictLookup (claimsDict ([exR].map fun x => (x.run_id, x.topic_id))
        [(Except.ok (Json.str "ab") : Except Unit Json)]) (exR.run_id, exR.topic_id) =
      some (Json.str "ab") ∧
    pyIterClaims (Json.str "ab") = some [Json.str "a", Json.str "b"] := by
  have hnd : ([exR].map fun x => (x.run_id, x.topic_id)).Nodup := by simp
  have hmem : ((exR.run_id, exR.topic_id), (Except.ok (Json.str "ab") : Except Unit Json)) ∈
      (([exR].map fun x => (x.run_id, x.topic_id)).zip
        [(Except.ok (Json.str "ab") : Except Unit Json)]) := by
    simp [exR]
  have h := valid_json_stored_verbatim [exR] [(Except.ok (Json.str "ab") : Except Unit Json)]
    exR (Json.str "ab") hnd hmem
  exact ⟨hnd, hmem, h.1, h.2.2 "ab"⟩

/-- C8: with qrels grades in [0, 3], every emitted entry has all three
measure values in [0, 1]. -/
theorem scores_in_unit_interval (md5 : String → String) (nli : String → Json → ℚ)
    (responses : List Response) (qrels : Option (List QrelsRow))
    (results : List (Except Unit Json)) (entries : List Entry)
    (hgrades : ∀ rows, qrels = some rows → ∀ row ∈ rows, 0 ≤ row.grade ∧ row.grade ≤ 3)
    (hj : judge md5 nli responses qrels results = some entries) :
    ∀ e ∈ entries,
      0 ≤ e.COMPLETENESS_SCORE ∧ e.COMPLETENESS_SCORE ≤ 1 ∧
      0 ≤ e.ATTRIBUTION_SCORE ∧ e.ATTRIBUTION_SCORE ≤ 1 ∧
      0 ≤ e.FINAL_SCORE ∧ e.FINAL_SCORE ≤ 1 := by
  intro e he
  rw [judge_eq] at hj
  rcases processAll_mem hj e he with ⟨r, _, hr⟩
  rcases processResponse_eq_some.mp hr with ⟨parsed, cl, hc, hi, he'⟩
  subst he'
  have hcb : 0 ≤ completenessScore (qrelsDict qrels) r.topic_id (md5 r.text) ∧
      completenessScore (qrelsDict qrels) r.topic_id (md5 r.text) ≤ 1 := by
    unfold completenessScore
    cases hq : dictLookup (qrelsDict qrels) (r.topic_id, md5 r.text) with
    | none => simp
    | some g =>
        have hg : 0 ≤ g ∧ g ≤ 3 := by
          cases qrels with
          | none => simp [qrelsDict, dictLookup] at hq
          | some rows =>
              have hmem := dictLookup_mem hq
              rw [qrelsDict_eq, List.mem_reverse, List.mem_map] at hmem
              rcases hmem with ⟨row, hrow, heq⟩
              have hg2 : row.grade = g := congrArg Prod.snd heq
              rw [← hg2]
              exact hgrades rows rfl row hrow
        simp only [hq, Option.getD_some]
        constructor
        · apply div_nonneg _ (by norm_num)
          exact_mod_cast hg.1
        · rw [div_le_one (by norm_num)]
          exact_mod_cast hg.2
  have hab : 0 ≤ attributionScore nli r.documents cl ∧
      attributionScore nli r.documents cl ≤ 1 := by
    unfold attributionScore
    split
    · norm_num
    · rename_i hne
      have hlen : 0 < (cl.length : ℚ) := by
        have h1 : cl ≠ [] := by simpa [List.isEmpty_iff] using hne
        have h2 := List.length_pos.mpr h1
        exact_mod_cast h2
      constructor
      · positivity
      · rw [div_le_one hlen]
        exact_mod_cast List.length_filter_le _ _
  rw [mkEntry_completeness, mkEntry_attribution, mkEntry_final]
  refine ⟨hcb.1, hcb.2, hab.1, hab.2, by linarith [hcb.1, hab.1], by
    linarith [hcb.2, hab.2]⟩

theorem scores_in_unit_interval_witness :
    (∀ rows, (some [(⟨"top", "h", 2⟩ : QrelsRow)] : Option (List QrelsRow)) = some rows →
      ∀ row ∈ rows, 0 ≤ row.grade ∧ row.grade ≤ 3) ∧
    judge exMd5 exNli [exR] (some [⟨"top", "h", 2⟩]) [Except.ok (Json.arr [])] =
      some [⟨"run", "top", 2/3, 0, 1/3⟩] ∧
    0 ≤ (Entry.mk "run" "top" (2/3) 0 (1/3)).COMPLETENESS_SCORE ∧
    (Entry.mk "run" "top" (2/3) 0 (1/3)).COMPLETENESS_SCORE ≤ 1 ∧
    0 ≤ (Entry.mk "run" "top" (2/3) 0 (1/3)).ATTRIBUTION_SCORE ∧
    (Entry.mk "run" "top" (2/3) 0 (1/3)).ATTRIBUTION_SCORE ≤ 1 ∧
    0 ≤ (Entry.mk "run" "top" (2/3) 0 (1/3)).FINAL_SCORE ∧
    (Entry.mk "run" "top" (2/3) 0 (1/3)).FINAL_SCORE ≤ 1 := by
  have hgrades : ∀ rows,
      (some [(⟨"top", "h", 2⟩ : QrelsRow)] : Option (List QrelsRow)) = some rows →
      ∀ row ∈ rows, 0 ≤ row.grade ∧ row.grade ≤ 3 := by
    rintro rows ⟨rfl⟩ row hrow
    simp only [List.mem_singleton] at hrow
    subst hrow
    norm_num
  have hj : judge exMd5 exNli [exR] (some [⟨"top", "h", 2⟩]) [Except.ok (Json.arr [])] =
      some [⟨"run", "top", 2/3, 0, 1/3⟩] := by
    norm_num [judge, processAll, processResponse, claimsDict, dictInsert, dictLookup,
      qrelsDict, parsedClaims, pyIterClaims, mkEntry, attributionScore, completenessScore,
      exMd5, exR, Entry.mk.injEq]
  have h := scores_in_unit_interval exMd5 exNli [exR] (some [⟨"top", "h", 2⟩])
    [Except.ok (Json.arr [])] _ hgrades hj _ (List.mem_singleton.mpr rfl)
  exact ⟨hgrades, hj, h.1, h.2.1, h.2.2.1, h.2.2.2.1, h.2.2.2.2.1, h.2.2.2.2.2⟩

/-- C5: every grade emitted by `create_qrels` is
round(3 * mean of the binary per-nugget scores) under round-half-to-even,
hence an integer in [0, 3]. -/
theorem qrels_grade_rounded_mean (banks : NuggetBanksModel) (responses : List Response)
    (results : List (Option String)) (r : Response) (rec : GradeRecord)
    (he : emitRecord (buildScores (qrelsRequestKeys banks responses) results) r =
      some rec) :
    ∃ tallies : List Nat,
      dictLookup (buildScores (qrelsRequestKeys banks responses) results)
        (r.run_id, r.topic_id) = some tallies ∧ tallies ≠ [] ∧
      (∀ t ∈ tallies, t = 0 ∨ t = 1) ∧
      rec.grade = pythonRound (3 * ((tallies.sum : ℚ) / (tallies.length : ℚ))) ∧
      0 ≤ rec.grade ∧ rec.grade ≤ 3 := by
  unfold emitRecord at he
  cases hs : dictLookup (buildScores (qrelsRequestKeys banks responses) results)
      (r.run_id, r.topic_id) with
  | none => rw [hs] at he; cases he
  | some tallies =>
      rw [hs] at he
      obtain ⟨hkey, hne, hbin⟩ :=
        buildScores_inv (qrelsRequestKeys banks responses) results _ (dictLookup_mem hs)
      have hrec : rec = ⟨r.topic_id, r.text,
          pythonRound (3 * ((tallies.sum : ℚ) / (tallies.length : ℚ)))⟩ :=
        (Option.some.inj he).symm
      have hgrade : rec.grade =
          pythonRound (3 * ((tallies.sum : ℚ) / (tallies.length : ℚ))) := by
        rw [hrec]
      refine ⟨tallies, rfl, hne, hbin, hgrade, ?_⟩
      have hlen : 0 < (tallies.length : ℚ) := by
        have h1 := List.length_pos.mpr hne
        exact_mod_cast h1
      have hsumle : (tallies.sum : ℚ) ≤ (tallies.length : ℚ) := by
        have hn : tallies.sum ≤ tallies.length := by
          have h1 : tallies.sum ≤ tallies.length • 1 :=
            List.sum_le_card_nsmul tallies 1
              (fun t ht => by rcases hbin t ht with h | h <;> simp [h])
          simpa using h1
        exact_mod_cast hn
      have hq0 : 0 ≤ 3 * ((tallies.sum : ℚ) / (tallies.length : ℚ)) := by positivity
      have hq3 : 3 * ((tallies.sum : ℚ) / (tallies.length : ℚ)) ≤ 3 := by
        have hdiv : (tallies.sum : ℚ) / (tallies.length : ℚ) ≤ 1 := by
          rw [div_le_one hlen]
          exact hsumle
        linarith
      rw [hgrade]
      exact pythonRound_bounds hq0 hq3

theorem qrels_grade_rounded_mean_witness :
    emitRecord (buildScores (qrelsRequestKeys [("top", ["q1", "q2"])] [exR])
      [some "1", some "1"]) exR = some ⟨"top", "txt", 3⟩ ∧
    buildScores (qrelsRequestKeys [("top", ["q1", "q2"])] [exR]) [some "1", some "1"] =
      [(("run", "top"), [1, 1])] ∧
    pythonRound (3 * ((([1, 1] : List Nat).sum : ℚ) / (([1, 1] : List Nat).length : ℚ))) =
      3 ∧
    0 ≤ (GradeRecord.mk "top" "txt" 3).grade ∧
    (GradeRecord.mk "top" "txt" 3).grade ≤ 3 ∧
    completenessScore (qrelsDict (some [⟨"top", "h", 3⟩])) "top" "h" = 1 := by
  have h1 : buildScores (qrelsRequestKeys [("top", ["q1", "q2"])] [exR])
      [some "1", some "1"] = [(("run", "top"), [1, 1])] := by decide
  have hemit : emitRecord (buildScores (qrelsRequestKeys [("top", ["q1", "q2"])] [exR])
      [some "1", some "1"]) exR = some ⟨"top", "txt", 3⟩ := by
    rw [emitRecord, h1]
    norm_num [dictLookup, pythonRound, exR]
  obtain ⟨tallies, _, _, _, _, hb0, hb3⟩ :=
    qrels_grade_rounded_mean [("top", ["q1", "q2"])] [exR] [some "1", some "1"] exR
      ⟨"top", "txt", 3⟩ hemit
  refine ⟨hemit, h1, by norm_num [pythonRound], hb0, hb3, ?_⟩
  norm_num [completenessScore, qrelsDict, dictInsert, dictLookup]

/-- C6: the binary reply parser returns 1 exactly for replies that, after
whitespace stripping and lowercasing, start with "1" or "yes", and 0 for
everything else including unreadable replies; in particular "1", "1 " and
"Yes please" give 1 while "0", "no", "" and a malformed reply give 0. -/
theorem parse_binary_spec :
    (∀ result : Option String,
      (parse_binary result = 1 ↔ ∃ t, result = some t ∧
        (pyStartsWith (pyLower (pyStrip t)) "1" = true ∨
         pyStartsWith (pyLower (pyStrip t)) "yes" = true)) ∧
      (parse_binary result = 0 ∨ parse_binary result = 1)) ∧
    parse_binary (some "1") = 1 ∧
    parse_binary (some "1 ") = 1 ∧
    parse_binary (some "Yes please") = 1 ∧
    parse_binary (some "0") = 0 ∧
    parse_binary (some "no") = 0 ∧
    parse_binary (some "") = 0 ∧
    parse_binary none = 0 := by
  refine ⟨fun result => ⟨?_, parse_binary_binary result⟩,
    by decide, by decide, by decide, by decide, by decide, by decide, rfl⟩
  cases result with
  | none => simp [parse_binary]
  | some t =>
      simp only [parse_binary, Option.some.injEq]
      cases h1 : pyStartsWith (pyLower (pyStrip t)) "1" <;>
        cases h2 : pyStartsWith (pyLower (pyStrip t)) "yes" <;>
        simp [h1, h2]

/-- C9: `create_qrels` emits a grade record for a response exactly when its
topic id is present in the nugget banks and at least one binary score was
recorded under its (run_id, topic_id) key; every emitted record appears in
the final `grade_records` list. -/
theorem qrels_record_emitted_iff (banks : NuggetBanksModel) (responses : List Response)
    (results : List (Option String)) (r : Response) (hr : r ∈ responses) :
    ((emitRecord (buildScores (qrelsRequestKeys banks responses) results) r).isSome =
        true ↔
      ((dictLookup banks r.topic_id).isSome = true ∧
        (dictLookup (buildScores (qrelsRequestKeys banks responses) results)
          (r.run_id, r.topic_id)).isSome = true)) ∧
    (∀ rec, emitRecord (buildScores (qrelsRequestKeys banks responses) results) r =
        some rec →
      rec ∈ create_qrels_records banks responses results) ∧
    (dictLookup banks r.topic_id = none →
      (r.run_id, r.topic_id) ∉ qrelsRequestKeys banks responses) := by
  refine ⟨?_, ?_, ?_⟩
  · constructor
    · intro h
      rw [Option.isSome_iff_exists] at h
      rcases h with ⟨rec, hrec⟩
      unfold emitRecord at hrec
      cases hs : dictLookup (buildScores (qrelsRequestKeys banks responses) results)
          (r.run_id, r.topic_id) with
      | none => rw [hs] at hrec; cases hrec
      | some tallies =>
          refine ⟨?_, by simp [hs]⟩
          have hkey := (buildScores_inv (qrelsRequestKeys banks responses) results _
            (dictLookup_mem hs)).1
          exact qrelsRequestKeys_topic hkey
    · rintro ⟨_, hs⟩
      rw [Option.isSome_iff_exists] at hs
      rcases hs with ⟨tallies, hs⟩
      unfold emitRecord
      rw [hs]
      rfl
  · intro rec hrec
    unfold create_qrels_records
    rw [List.mem_filterMap]
    exact ⟨r, hr, hrec⟩
  · intro hnone hk
    have hsome := qrelsRequestKeys_topic hk
    rw [hnone] at hsome
    cases hsome

theorem qrels_record_emitted_iff_witness :
    exR ∈ [exR] ∧
    (emitRecord (buildScores (qrelsRequestKeys [("top", ["q1"])] [exR]) [some "1"])
      exR).isSome = true ∧
    (dictLookup ([("top", ["q1"])] : NuggetBanksModel) exR.topic_id).isSome = true ∧
    (GradeRecord.mk "top" "txt" 3) ∈
      create_qrels_records [("top", ["q1"])] [exR] [some "1"] := by
  have hr : exR ∈ [exR] := List.mem_singleton.mpr rfl
  have h1 : buildScores (qrelsRequestKeys [("top", ["q1"])] [exR]) [some "1"] =
      [(("run", "top"), [1])] := by decide
  have hemit : emitRecord (buildScores (qrelsRequestKeys [("top", ["q1"])] [exR])
      [some "1"]) exR = some ⟨"top", "txt", 3⟩ := by
    rw [emitRecord, h1]
    norm_num [dictLookup, pythonRound, exR]
  have h := qrels_record_emitted_iff [("top", ["q1"])] [exR] [some "1"] exR hr
  refine ⟨hr, by rw [hemit]; rfl, ?_, h.2.1 _ hemit⟩
  have hiff := (h.1.mp (by rw [hemit]; rfl)).1
  exact hiff

end MinnaJudge
